import Mathlib

/-!
Verification of the iterator / pagination layer of the `orm` package
(`iterator.go`): single-value and limited iterator combinators,
destination validation (`assertDest`), `ReadAll` and `Paginate`.

The Go code is shallowly embedded: byte slices become `List Nat`
(with `Option` distinguishing a nil slice from a non-nil empty one,
a distinction Go makes), stateful iterators become explicit state
machines, and an abstract iterator consumed by `ReadAll`/`Paginate`
is the stream of results its successive `LoadNext` calls produce.
All quantities involved in the claims are far below 2^64, so Go
`uint64` arithmetic is modelled by `Nat` (no claim exercises wraparound).
-/

set_option maxRecDepth 100000

namespace Orm

/-- A RowID is an opaque byte sequence. -/
abbrev RowID := List Nat

/-- A decoded record, abstracted as the byte content that was decoded. -/
abbrev Record := List Nat

/-- The errors produced or propagated by the iterator layer:
`done` (= ErrIteratorDone), `invalid` (= ErrIteratorInvalid),
`argument msg` (= errors.Wrap(ErrArgument, msg)),
`plain msg` (= fmt.Errorf), `decode msg` (opaque Unmarshal failures). -/
inductive OrmError
  | done
  | invalid
  | argument (msg : String)
  | plain (msg : String)
  | decode (msg : String)
  deriving DecidableEq

/-- `ErrIteratorDone.Is(err)`: the done sentinel is produced unwrapped
in this file, so the check is equality with the sentinel. -/
def OrmError.isDone : OrmError → Bool
  | .done => true
  | _ => false

/-- One observable outcome of a `LoadNext` call of an abstract iterator:
either a successfully read and decoded record, or a non-nil error
(the done sentinel itself appearing as `fail _ .done`). -/
inductive Step
  | ok (rid : RowID) (rec : Record)
  | fail (rid : Option RowID) (e : OrmError)
  deriving DecidableEq

/-- Whether a step is the done sentinel, as `ErrIteratorDone.Is` sees it. -/
def stepIsDone : Step → Bool
  | .ok _ _ => false
  | .fail _ e => e.isDone

/-- Whether a step is a successful read (LoadNext returned a nil error). -/
def stepIsOk : Step → Bool
  | .ok _ _ => true
  | .fail _ _ => false

/-- The RowID a step carries (defaulting to nil for failures). -/
def stepRid : Step → RowID
  | .ok r _ => r
  | .fail r _ => r.getD []

/-- The record a step decodes (unused for failures). -/
def stepRec : Step → Record
  | .ok _ rec => rec
  | .fail _ _ => []

/-- The pair `(RowID, error)` a Go `LoadNext(dest)` call returns, plus the
value that the call decoded into `dest` (when the decode succeeded). -/
structure LoadResult where
  rid : Option RowID
  err : Option OrmError
  written : Option Record
  deriving DecidableEq

/-- `LoadNext` of the stream-of-outcomes iterator: pops the next step;
an exhausted stream keeps reporting the done sentinel. -/
def listLoadNext : List Step → LoadResult × List Step
  | [] => (⟨none, some .done, none⟩, [])
  | .ok rid rec :: rest => (⟨some rid, none, some rec⟩, rest)
  | .fail rid e :: rest => (⟨rid, some e, none⟩, rest)

/-- An iterator implementation over state type `σ`: `loadNext` takes
whether the destination argument is nil, `close` releases resources. -/
structure IterImpl (σ : Type) where
  loadNext : Bool → σ → LoadResult × σ
  close : σ → Option OrmError

/-- The stream-of-outcomes iterator as an `IterImpl`; its `Close` always
returns nil (like `IteratorFunc.Close`). -/
def listIter : IterImpl (List Step) :=
  ⟨fun _ s => listLoadNext s, fun _ => none⟩

/-- State of `NewSingleValueIterator`: the captured rowID, the captured
byte buffer (`none` = Go nil slice), and the `closed` flag. -/
structure SingleValueState where
  rowID : RowID
  val : Option (List Nat)
  closed : Bool
  deriving DecidableEq

/-- `NewSingleValueIterator(rowID, val)`: initial closure state. -/
def NewSingleValueIterator (rowID : RowID) (val : Option (List Nat)) : SingleValueState :=
  ⟨rowID, val, false⟩

/-- `LoadNext` of the single-value iterator. `um` is the destination
type's `Unmarshal`; `destNil` is whether the passed dest is nil.
Mirrors: nil-dest guard, then `closed || val == nil` done check, then
`closed = true; return rowID, dest.Unmarshal(val)`. -/
def svLoadNext (um : List Nat → Except OrmError Record) (destNil : Bool)
    (s : SingleValueState) : LoadResult × SingleValueState :=
  if destNil then
    (⟨none, some (.argument "destination object must not be nil"), none⟩, s)
  else if s.closed || s.val.isNone then
    (⟨none, some .done, none⟩, s)
  else
    match um (s.val.getD []) with
    | .ok rec => (⟨some s.rowID, none, some rec⟩, { s with closed := true })
    | .error e => (⟨some s.rowID, some e, none⟩, { s with closed := true })

/-- The state reached after `k` further `LoadNext` calls (with a non-nil
destination) on a single-value iterator. -/
def svIterate (um : List Nat → Except OrmError Record) : Nat → SingleValueState → SingleValueState
  | 0, s => s
  | Nat.succ k, s => svIterate um k (svLoadNext um false s).2

/-- `LimitedIterator`: the remaining count and the parent iterator state.
`remainingCount` is a Go `int`, but `LimitIterator` panics on a negative
max, so it is always non-negative and `Nat` is faithful. -/
structure LimitedIterator (σ : Type) where
  remainingCount : Nat
  parentIterator : σ
  deriving DecidableEq

/-- `LimitIterator(parent, max)` constructor. -/
def LimitIterator {σ : Type} (parent : σ) (maxN : Nat) : LimitedIterator σ :=
  ⟨maxN, parent⟩

/-- `LimitedIterator.LoadNext`: done when the remaining count is zero,
otherwise decrement and delegate to the parent. -/
def limLoadNext {σ : Type} (impl : IterImpl σ) (destNil : Bool)
    (s : LimitedIterator σ) : LoadResult × LimitedIterator σ :=
  if s.remainingCount = 0 then
    (⟨none, some .done, none⟩, s)
  else
    let r := impl.loadNext destNil s.parentIterator
    (r.1, ⟨s.remainingCount - 1, r.2⟩)

/-- `LimitedIterator.Close`: forwards to the parent iterator. -/
def limClose {σ : Type} (impl : IterImpl σ) (s : LimitedIterator σ) : Option OrmError :=
  impl.close s.parentIterator

/-- The state reached after `j` further `LoadNext` calls (with a non-nil
destination) on a limited iterator. -/
def limIterate {σ : Type} (impl : IterImpl σ) : Nat → LimitedIterator σ → LimitedIterator σ
  | 0, s => s
  | Nat.succ j, s => limIterate impl j (limLoadNext impl false s).2

/-- Results and final state of `n` successive `LoadNext` calls on a
limited iterator over the stream-of-outcomes parent. -/
def limRunList : Nat → LimitedIterator (List Step) → List LoadResult × LimitedIterator (List Step)
  | 0, s => ([], s)
  | Nat.succ k, s =>
    let r := limLoadNext listIter false s
    let rest := limRunList k r.2
    (r.1 :: rest.1, rest.2)

/-- How a destination slice's element type relates to the ProtoMarshaler
(Decodable Record) contract: implemented by the type itself, only by its
pointer form, or by neither. -/
inductive ElemDecodable
  | direct
  | viaPtr
  | no
  deriving DecidableEq

/-- The shapes a `ModelSlicePtr` argument can take, as `assertDest`
distinguishes them: nil interface, non-pointer, pointer to a non-slice,
or pointer to a slice (with the slice's element type name, whether the
dereferenced value is assignable, how its element type relates to the
decodable contract, and the current contents — `none` for a nil slice). -/
inductive Dest
  | nil
  | nonPtr
  | ptrToNonSlice
  | ptrToSlice (elemType : String) (canSet : Bool) (dec : ElemDecodable)
      (contents : Option (List Record))
  deriving DecidableEq

/-- `destRef.Set(tmpSlice)`: overwrite the pointed-to slice. Only
reachable on validated destinations; other shapes are unchanged. -/
def Dest.setContents : Dest → List Record → Dest
  | .ptrToSlice ty cs dec _, l => .ptrToSlice ty cs dec (some l)
  | d, _ => d

/-- The contents of a pointed-to slice (for stating non-interference). -/
def Dest.contents : Dest → Option (List Record)
  | .ptrToSlice _ _ _ c => c
  | _ => none

/-- `assertDest`: validates the destination and returns the element type
descriptor together with the empty working slice (`reflect.MakeSlice`,
which is non-nil). Checks in source order: nil, non-pointer,
pointer-to-non-slice, assignability, decodable element type. -/
def assertDest : Dest → Except OrmError (String × List Record)
  | .nil => .error (.argument "destination must not be nil")
  | .nonPtr => .error (.argument "destination must be a pointer to a slice")
  | .ptrToNonSlice => .error (.argument "destination must point to a slice")
  | .ptrToSlice ty canSet dec _ =>
    if !canSet then .error (.argument "destination not assignable")
    else if dec = ElemDecodable.no then .error (.argument ("unsupported type :" ++ ty))
    else .ok (ty, [])

/-- Decidable equality for `Except`, needed to evaluate outcomes. -/
instance {ε α : Type} [DecidableEq ε] [DecidableEq α] : DecidableEq (Except ε α) := fun a b =>
  match a, b with
  | .ok x, .ok y => decidable_of_iff (x = y) (by simp)
  | .error x, .error y => decidable_of_iff (x = y) (by simp)
  | .ok _, .error _ => isFalse (by simp)
  | .error _, .ok _ => isFalse (by simp)

/-- `query.PageRequest`: `key = none` models a nil Go byte slice. -/
structure PageRequest where
  offset : Nat
  key : Option (List Nat)
  limit : Nat
  countTotal : Bool
  deriving DecidableEq

/-- `query.PageResponse`; `total = none` models the field being left at
its zero value (never assigned). -/
structure PageResponse where
  nextKey : Option RowID
  total : Option Nat
  deriving DecidableEq

/-- The loop state of `Paginate`: running count, captured nextKey, the
working slice, the destination, plus instrumentation — how many times
`destRef.Set` ran and how many `LoadNext` calls were made. -/
structure LoopState where
  count : Nat
  nextKey : Option RowID
  tmpSlice : List Record
  dest : Dest
  setCount : Nat
  consumed : Nat
  deriving DecidableEq

/-- How the `Paginate` loop exits: normal break or an error return. -/
inductive LoopExit
  | finished (s : LoopState)
  | errored (e : OrmError) (s : LoopState)
  deriving DecidableEq

/-- The `for` loop of `Paginate`, mirroring the source order exactly:
LoadNext; done-check (commit and break); `count++`; offset-window skip
(`continue` before the error check, so in-window errors are swallowed);
error return; append while `count <= end`; at `count == end+1` capture
nextKey, commit, and break unless a total must still be counted. An
exhausted stream behaves as a done-reporting iterator. -/
def paginateLoop (offset endIdx : Nat) (countTotal : Bool) (keyLen : Nat) :
    List Step → LoopState → LoopExit
  | [], s =>
    let s1 := { s with consumed := s.consumed + 1 }
    .finished { s1 with dest := s1.dest.setContents s1.tmpSlice, setCount := s1.setCount + 1 }
  | step :: rest, s =>
    let s1 := { s with consumed := s.consumed + 1 }
    match step with
    | .fail _ e =>
      if e.isDone then
        .finished { s1 with dest := s1.dest.setContents s1.tmpSlice, setCount := s1.setCount + 1 }
      else if s1.count + 1 ≤ offset then
        paginateLoop offset endIdx countTotal keyLen rest { s1 with count := s1.count + 1 }
      else
        .errored e { s1 with count := s1.count + 1 }
    | .ok rid rec =>
      if s1.count + 1 ≤ offset then
        paginateLoop offset endIdx countTotal keyLen rest { s1 with count := s1.count + 1 }
      else if s1.count + 1 ≤ endIdx then
        paginateLoop offset endIdx countTotal keyLen rest
          { s1 with count := s1.count + 1, tmpSlice := s1.tmpSlice ++ [rec] }
      else if s1.count + 1 = endIdx + 1 then
        let s2 := { s1 with
          count := s1.count + 1
          nextKey := some rid
          dest := s1.dest.setContents s1.tmpSlice
          setCount := s1.setCount + 1 }
        if countTotal = false ∨ keyLen ≠ 0 then .finished s2
        else paginateLoop offset endIdx countTotal keyLen rest s2
      else
        paginateLoop offset endIdx countTotal keyLen rest { s1 with count := s1.count + 1 }

/-- The full observable outcome of a `Paginate` call: the returned value
or error, the destination after the call, whether `it.Close()` ran, the
number of `LoadNext` calls made, and the number of `destRef.Set` calls. -/
structure PaginateOutcome where
  out : Except OrmError PageResponse
  dest : Dest
  closed : Bool
  consumed : Nat
  setCount : Nat
  deriving DecidableEq

/-- `Paginate`, in source order: nil `pageRequest` defaulting; the
`offset > 0 && key != nil` request-shape check (before the deferred
Close is installed); `limit == 0` defaulting (also forcing countTotal);
the nil-iterator check; `defer it.Close()`; destination validation; the
loop; response construction (`Total` only when countTotal and the key
has zero length). -/
def Paginate (it : Option (List Step)) (pageRequest : Option PageRequest)
    (dest : Dest) : PaginateOutcome :=
  let pr := pageRequest.getD ⟨0, none, 0, false⟩
  if pr.offset > 0 ∧ pr.key.isSome then
    ⟨.error (.plain "invalid request, either offset or key is expected, got both"),
      dest, false, 0, 0⟩
  else
    let limit := if pr.limit = 0 then 100 else pr.limit
    let countTotal := if pr.limit = 0 then true else pr.countTotal
    match it with
    | none => ⟨.error (.argument "iterator must not be nil"), dest, false, 0, 0⟩
    | some steps =>
      match assertDest dest with
      | .error e => ⟨.error e, dest, true, 0, 0⟩
      | .ok _ =>
        let keyLen := (pr.key.getD []).length
        match paginateLoop pr.offset (pr.offset + limit) countTotal keyLen steps
            ⟨0, none, [], dest, 0, 0⟩ with
        | .errored e s => ⟨.error e, s.dest, true, s.consumed, s.setCount⟩
        | .finished s =>
          ⟨.ok ⟨s.nextKey, if countTotal ∧ keyLen = 0 then some s.count else none⟩,
            s.dest, true, s.consumed, s.setCount⟩

/-- The tail of `Paginate` once the request shape, the iterator and the
destination have been validated: run the loop with the effective
offset, limit, countTotal and key length, then build the response. -/
def paginateValidated (offset limit : Nat) (ct : Bool) (kl : Nat)
    (steps : List Step) (d : Dest) : PaginateOutcome :=
  match paginateLoop offset (offset + limit) ct kl steps ⟨0, none, [], d, 0, 0⟩ with
  | .errored e s => ⟨.error e, s.dest, true, s.consumed, s.setCount⟩
  | .finished s =>
    ⟨.ok ⟨s.nextKey, if ct ∧ kl = 0 then some s.count else none⟩,
      s.dest, true, s.consumed, s.setCount⟩

/-- The full observable outcome of a `ReadAll` call. -/
structure ReadAllOutcome where
  out : Except OrmError (List RowID)
  dest : Dest
  closed : Bool
  setCount : Nat
  deriving DecidableEq

/-- The `for` loop of `ReadAll`: on success append the record to the
working slice and the rowID to the accumulated list; on the done
sentinel commit and return the rowIDs; on any other error return it
without committing. -/
def readAllLoop : List Step → List RowID → List Record → Dest → Nat →
    Except OrmError (List RowID) × Dest × Nat
  | [], rowIDs, tmpSlice, d, sc => (.ok rowIDs, d.setContents tmpSlice, sc + 1)
  | .ok rid rec :: rest, rowIDs, tmpSlice, d, sc =>
    readAllLoop rest (rowIDs ++ [rid]) (tmpSlice ++ [rec]) d sc
  | .fail _ e :: _, rowIDs, tmpSlice, d, sc =>
    if e.isDone then (.ok rowIDs, d.setContents tmpSlice, sc + 1)
    else (.error e, d, sc)

/-- `ReadAll`: nil-iterator check (before the deferred Close), then
destination validation, then the accumulation loop. -/
def ReadAll (it : Option (List Step)) (dest : Dest) : ReadAllOutcome :=
  match it with
  | none => ⟨.error (.argument "iterator must not be nil"), dest, false, 0⟩
  | some steps =>
    match assertDest dest with
    | .error e => ⟨.error e, dest, true, 0⟩
    | .ok _ =>
      let r := readAllLoop steps [] [] dest 0
      ⟨r.1, r.2.1, true, r.2.2⟩

/-- The effective request after nil defaulting. -/
abbrev effReq (pageRequest : Option PageRequest) : PageRequest :=
  pageRequest.getD ⟨0, none, 0, false⟩

/-- The effective limit after `limit == 0` defaulting. -/
abbrev effLimit (pr : PageRequest) : Nat :=
  if pr.limit = 0 then 100 else pr.limit

/-- The effective countTotal flag (`limit == 0` forces it to true). -/
abbrev effCountTotal (pr : PageRequest) : Bool :=
  if pr.limit = 0 then true else pr.countTotal

/-- `len(key)` of the request (0 for a nil key). -/
abbrev effKeyLen (pr : PageRequest) : Nat :=
  (pr.key.getD []).length

/-- The `end` bound of the pagination window. -/
abbrev effEnd (pr : PageRequest) : Nat :=
  pr.offset + effLimit pr

/-- The records an iterator yields before first reporting done,
including unsuccessful reads (they increment the running count). -/
def counted (steps : List Step) : List Step :=
  steps.takeWhile (fun st => !stepIsDone st)

/-- The RowID of the record that the running count reaches at
`count = endIdx + 1`: the step at 0-based position `endIdx` among the
counted records, when that step is a successful read. -/
def pastWindowRid (steps : List Step) (endIdx : Nat) : Option RowID :=
  match (counted steps)[endIdx]? with
  | some (.ok r _) => some r
  | _ => none

/-- The successful prefix of an iterator's outcome stream. -/
def okTake (steps : List Step) : List Step :=
  steps.takeWhile stepIsOk

/-- Whether the first outcome after the successful prefix (if any) is
the done sentinel, i.e. the iterator terminates cleanly. -/
def doneAfterOks (steps : List Step) : Bool :=
  match steps.dropWhile stepIsOk with
  | [] => true
  | st :: _ => stepIsDone st

/-- The `LoadNext` result a single step produces when consumed. -/
def stepLoad (st : Step) : LoadResult :=
  (listLoadNext [st]).1

/-- An iterator implementation that is permanently exhausted. -/
def unitDoneIter : IterImpl Unit :=
  ⟨fun _ _ => (⟨none, some .done, none⟩, ()), fun _ => none⟩

/-- A store of 250 records; record `i` (1-based) has RowID `[i]` and
decodes to `[i]`. -/
def okSteps250 : List Step :=
  (List.range 250).map fun i => Step.ok [i + 1] [i + 1]

/-- A valid destination: pointer to an assignable nil slice whose
element type implements the decodable contract directly. -/
def mDest : Dest :=
  Dest.ptrToSlice "M" true ElemDecodable.direct none

/-- The loop state carried out of either exit of the Paginate loop. -/
def exitState : LoopExit → LoopState
  | .finished s => s
  | .errored _ s => s

/-- C5: Paginate with a nil pageRequest (defaults: offset 0, no key,
limit 0, which becomes limit 100 and forces countTotal) over an
iterator of 250 records appends exactly the first 100 records to the
destination, returns nextKey equal to the 101st record's RowID and
total 250, with no error (and the iterator is closed). -/
theorem c5_default_pagination :
    (Paginate (some okSteps250) none mDest).out =
      .ok ⟨some [101], some 250⟩ ∧
    (Paginate (some okSteps250) none mDest).dest =
      Dest.ptrToSlice "M" true ElemDecodable.direct
        (some ((List.range 100).map fun i => [i + 1])) ∧
    (Paginate (some okSteps250) none mDest).closed = true := by
  refine ⟨by decide, by decide, by decide⟩

/-- C2: with offset > 0 and a non-nil key, Paginate returns the plain
request-shape error and makes no LoadNext call, but — contrary to the
claim and to Paginate's own doc comment ("This function will call
it.Close()") — it returns before the deferred Close is installed, so
the iterator is NOT closed (`closed = false` below). -/
theorem c2_iterator_not_closed :
    Paginate (some [Step.ok [1] [1]]) (some ⟨1, some [9], 10, false⟩) mDest =
      ⟨.error (.plain "invalid request, either offset or key is expected, got both"),
        mDest, false, 0, 0⟩ := by
  decide

/-- C1 fails as stated: here the very first LoadNext returns a decode
error while the running count (1) is within the offset window
(offset 1), yet Paginate returns success — the decode error is
swallowed, not propagated; the errored record is counted and skipped
and the remaining record is returned. -/
theorem c1_counterexample :
    (Paginate (some [Step.fail none (OrmError.decode "bad"), Step.ok [2] [7]])
      (some ⟨1, none, 5, false⟩) mDest).out = .ok ⟨none, none⟩ ∧
    (Paginate (some [Step.fail none (OrmError.decode "bad"), Step.ok [2] [7]])
      (some ⟨1, none, 5, false⟩) mDest).dest =
      Dest.ptrToSlice "M" true ElemDecodable.direct (some [[7]]) := by
  refine ⟨by decide, by decide⟩

/-- C4 fails as stated for a present-but-empty buffer: Go distinguishes
a nil byte slice from a non-nil empty one, and the code only checks
`val == nil`; a single-value iterator built from an empty (non-nil)
buffer does not report IteratorDone on its first LoadNext — it returns
the RowID with the decode of the empty buffer. -/
theorem c4_counterexample :
    (svLoadNext (fun bs => Except.ok bs) false
      (NewSingleValueIterator [5] (some []))).1 = ⟨some [5], none, some []⟩ := by
  decide

/-- C3 fails as stated: the remaining count is decremented on every
LoadNext call made while it is nonzero, not only on successful ones.
Over a parent that fails with IteratorInvalid, a limited iterator with
max 1 returns the invalid error on the first call yet its remaining
count drops to 0, so the second call reports IteratorDone instead of
consulting the parent again. -/
theorem c3_counterexample :
    (limLoadNext listIter false
      (LimitIterator [Step.fail none OrmError.invalid] 1)).1.err =
      some OrmError.invalid ∧
    (limLoadNext listIter false
      (LimitIterator [Step.fail none OrmError.invalid] 1)).2.remainingCount = 0 ∧
    (limLoadNext listIter false
      (limLoadNext listIter false
        (LimitIterator [Step.fail none OrmError.invalid] 1)).2).1.err =
      some OrmError.done := by
  refine ⟨by decide, by decide, by decide⟩

/-- C10 fails as stated: with limit 1 and countTotal, Paginate commits
the page into the destination at count = end + 1 and keeps scanning to
count the total; a decode error on the next record is then returned as
an error even though the caller's destination was already overwritten
(initial contents were a nil slice, final contents are the page). -/
theorem c10_counterexample :
    (Paginate (some [Step.ok [1] [10], Step.ok [2] [20],
        Step.fail none (OrmError.decode "boom")])
      (some ⟨0, none, 1, true⟩) mDest).out = .error (OrmError.decode "boom") ∧
    (Paginate (some [Step.ok [1] [10], Step.ok [2] [20],
        Step.fail none (OrmError.decode "boom")])
      (some ⟨0, none, 1, true⟩) mDest).dest =
      Dest.ptrToSlice "M" true ElemDecodable.direct (some [[10]]) ∧
    (Paginate (some [Step.ok [1] [10], Step.ok [2] [20],
        Step.fail none (OrmError.decode "boom")])
      (some ⟨0, none, 1, true⟩) mDest).dest ≠ mDest := by
  refine ⟨by decide, by decide, by decide⟩

/-- C8: destination validation rejects a nil destination, a non-pointer
destination, a pointer to a non-slice, and a slice whose element type
implements the decodable contract neither directly nor via its pointer
form — each with an ArgumentError — and on a valid destination returns
the element type descriptor and the empty working slice. -/
theorem c8_assert_dest (ty : String) (contents : Option (List Record))
    (dec : ElemDecodable) (h : dec ≠ ElemDecodable.no) :
    assertDest Dest.nil = .error (.argument "destination must not be nil") ∧
    assertDest Dest.nonPtr =
      .error (.argument "destination must be a pointer to a slice") ∧
    assertDest Dest.ptrToNonSlice =
      .error (.argument "destination must point to a slice") ∧
    assertDest (Dest.ptrToSlice ty true ElemDecodable.no contents) =
      .error (.argument ("unsupported type :" ++ ty)) ∧
    assertDest (Dest.ptrToSlice ty true dec contents) = .ok (ty, []) := by
  refine ⟨rfl, rfl, rfl, by simp [assertDest], by simp [assertDest, h]⟩

/-- C8 witness: the validation facts at a concrete element type. -/
theorem c8_assert_dest_witness :
    ElemDecodable.viaPtr ≠ ElemDecodable.no ∧
    (assertDest Dest.nil = .error (.argument "destination must not be nil") ∧
      assertDest Dest.nonPtr =
        .error (.argument "destination must be a pointer to a slice") ∧
      assertDest Dest.ptrToNonSlice =
        .error (.argument "destination must point to a slice") ∧
      assertDest (Dest.ptrToSlice "T" true ElemDecodable.no none) =
        .error (.argument ("unsupported type :" ++ "T")) ∧
      assertDest (Dest.ptrToSlice "T" true ElemDecodable.viaPtr none) =
        .ok ("T", [])) :=
  ⟨by decide, c8_assert_dest "T" none ElemDecodable.viaPtr (by decide)⟩

/-- A closed single-value iterator reports done and stays unchanged. -/
theorem svLoadNext_closed (um : List Nat → Except OrmError Record)
    (s : SingleValueState) (h : s.closed = true) :
    svLoadNext um false s = (⟨none, some .done, none⟩, s) := by
  simp [svLoadNext, h]

/-- Iterating a closed single-value iterator leaves it unchanged. -/
theorem svIterate_closed (um : List Nat → Except OrmError Record)
    (k : Nat) (s : SingleValueState) (h : s.closed = true) :
    svIterate um k s = s := by
  induction k with
  | zero => rfl
  | succ k ih => rw [svIterate, svLoadNext_closed um s h]; exact ih

/-- C4 (amended): a single-value iterator built from a present buffer
(empty or not) consumes it on the first LoadNext with a non-nil
destination, returning the captured RowID and the result of decoding
the buffer, and becomes closed, after which every subsequent LoadNext
reports IteratorDone; built from an absent (nil) buffer the very first
LoadNext reports IteratorDone; a nil destination yields ArgumentError
and leaves the state — hence the single value — unconsumed. -/
theorem c4_single_value (rowID : RowID) (bs : List Nat)
    (um : List Nat → Except OrmError Record) (s2 : SingleValueState) (k : Nat) :
    (svLoadNext um false (NewSingleValueIterator rowID (some bs))).1 =
      (match um bs with
        | .ok rec => ⟨some rowID, none, some rec⟩
        | .error e => ⟨some rowID, some e, none⟩) ∧
    (svLoadNext um false (NewSingleValueIterator rowID (some bs))).2.closed = true ∧
    (svLoadNext um false (svIterate um k
      (svLoadNext um false (NewSingleValueIterator rowID (some bs))).2)).1.err =
      some OrmError.done ∧
    svLoadNext um false (NewSingleValueIterator rowID none) =
      (⟨none, some .done, none⟩, NewSingleValueIterator rowID none) ∧
    svLoadNext um true s2 =
      (⟨none, some (.argument "destination object must not be nil"), none⟩, s2) := by
  have hfst : (svLoadNext um false (NewSingleValueIterator rowID (some bs))).2.closed
      = true := by
    simp only [svLoadNext, NewSingleValueIterator]
    cases h : um bs <;> simp [h]
  refine ⟨?_, hfst, ?_, ?_, ?_⟩
  · simp only [svLoadNext, NewSingleValueIterator]
    cases h : um bs <;> simp [h]
  · rw [svIterate_closed um k _ hfst, svLoadNext_closed um _ hfst]
  · simp [svLoadNext, NewSingleValueIterator]
  · simp [svLoadNext]

/-- The run of a limited iterator over a stream parent whose first
`maxN` outcomes are successful: `maxN + 1` calls produce those `maxN`
results followed by the done sentinel, consuming exactly `maxN`
elements of the parent. -/
theorem limRunList_ok (maxN : Nat) :
    ∀ steps : List Step, maxN ≤ (okTake steps).length →
      limRunList (maxN + 1) (LimitIterator steps maxN) =
        ((steps.take maxN).map stepLoad ++ [⟨none, some .done, none⟩],
          LimitIterator (steps.drop maxN) 0) := by
  induction maxN with
  | zero =>
    intro steps _
    simp [limRunList, limLoadNext, LimitIterator]
  | succ m ih =>
    intro steps hlen
    match steps with
    | [] => simp [okTake] at hlen
    | Step.fail rid e :: rest => simp [okTake, List.takeWhile, stepIsOk] at hlen
    | Step.ok rid rec :: rest =>
      have hlen2 : m ≤ (okTake rest).length := by
        simpa [okTake, List.takeWhile, stepIsOk] using hlen
      have hstep : limLoadNext listIter false (LimitIterator (Step.ok rid rec :: rest) (m + 1)) =
          (⟨some rid, none, some rec⟩, LimitIterator rest m) := by
        simp [limLoadNext, LimitIterator, listIter, listLoadNext]
      rw [limRunList, hstep, ih rest hlen2]
      simp [stepLoad, listLoadNext]

/-- C3 (amended): a limited iterator with max 0 reports IteratorDone on
the very first LoadNext without touching the parent (for every parent
implementation and state); over a parent yielding at least `maxN`
records it yields exactly those `maxN` records then IteratorDone,
consuming no further element from the parent; its remaining count is
decremented on every LoadNext call made while it is nonzero (whether or
not the parent call succeeds); and its Close is the parent's Close. -/
theorem c3_limited_iterator {σ : Type} (impl : IterImpl σ) (p : σ)
    (destNil dn2 : Bool) (steps : List Step) (maxN : Nat)
    (s : LimitedIterator σ)
    (hmax : maxN ≤ (okTake steps).length) (hrem : s.remainingCount ≠ 0) :
    limLoadNext impl destNil (LimitIterator p 0) =
      (⟨none, some .done, none⟩, LimitIterator p 0) ∧
    limRunList (maxN + 1) (LimitIterator steps maxN) =
      ((steps.take maxN).map stepLoad ++ [⟨none, some .done, none⟩],
        LimitIterator (steps.drop maxN) 0) ∧
    (limLoadNext impl dn2 s).2.remainingCount = s.remainingCount - 1 ∧
    limClose impl s = impl.close s.parentIterator := by
  refine ⟨by simp [limLoadNext, LimitIterator], limRunList_ok maxN steps hmax, ?_, rfl⟩
  simp [limLoadNext, hrem]

/-- C3 witness: the limited-iterator facts at max 2 over a
three-record parent, and a live iterator with remaining count 1. -/
theorem c3_limited_iterator_witness :
    (2 ≤ (okTake [Step.ok [1] [1], Step.ok [2] [2], Step.ok [3] [3]]).length ∧
      (LimitIterator ([] : List Step) 1).remainingCount ≠ 0) ∧
    (limLoadNext listIter false (LimitIterator ([Step.ok [9] [9]]) 0) =
      (⟨none, some .done, none⟩, LimitIterator ([Step.ok [9] [9]]) 0) ∧
    limRunList 3 (LimitIterator [Step.ok [1] [1], Step.ok [2] [2], Step.ok [3] [3]] 2) =
      (([Step.ok [1] [1], Step.ok [2] [2]].map stepLoad) ++ [⟨none, some .done, none⟩],
        LimitIterator [Step.ok [3] [3]] 0) ∧
    (limLoadNext listIter true (LimitIterator ([] : List Step) 1)).2.remainingCount =
      (LimitIterator ([] : List Step) 1).remainingCount - 1 ∧
    limClose listIter (LimitIterator ([] : List Step) 1) =
      listIter.close (LimitIterator ([] : List Step) 1).parentIterator) :=
  ⟨⟨by decide, by decide⟩, by
    have h := c3_limited_iterator listIter [Step.ok [9] [9]] false true
      [Step.ok [1] [1], Step.ok [2] [2], Step.ok [3] [3]] 2
      (LimitIterator ([] : List Step) 1) (by decide) (by decide)
    simpa using h⟩

/-- A non-done error read while the count is inside the offset window
is treated exactly like a successful read there: skip and count. -/
theorem paginateLoop_first_skip (offset endIdx : Nat) (ct : Bool) (kl : Nat)
    (rid : Option RowID) (e : OrmError) (r2 : RowID) (rec : Record)
    (rest : List Step) (s : LoopState)
    (h1 : s.count + 1 ≤ offset) (h2 : e.isDone = false) :
    paginateLoop offset endIdx ct kl (Step.fail rid e :: rest) s =
      paginateLoop offset endIdx ct kl (Step.ok r2 rec :: rest) s := by
  simp [paginateLoop, h1, h2]

/-- C1 (amended): while the running count is within the offset window,
a successfully read record is skipped without being appended, and a
decode (or any non-done) error returned by LoadNext there is likewise
swallowed: the whole Paginate call proceeds exactly as if that record
had been read successfully — the error is not propagated. -/
theorem c1_offset_window_swallows (rid : Option RowID) (e : OrmError)
    (r2 : RowID) (rec : Record) (rest : List Step) (pr : PageRequest) (d : Dest)
    (h1 : 1 ≤ pr.offset) (h2 : e.isDone = false) :
    Paginate (some (Step.fail rid e :: rest)) (some pr) d =
      Paginate (some (Step.ok r2 rec :: rest)) (some pr) d := by
  unfold Paginate
  simp only [Option.getD]
  rw [paginateLoop_first_skip pr.offset _ _ _ rid e r2 rec rest _ (by simpa using h1) h2]

/-- C1 witness: with offset 1, Paginate over a stream whose first read
fails with a decode error equals Paginate over the same stream with
that read replaced by a successful one. -/
theorem c1_offset_window_swallows_witness :
    (1 ≤ (PageRequest.mk 1 none 5 false).offset ∧
      (OrmError.decode "bad").isDone = false) ∧
    Paginate (some [Step.fail none (OrmError.decode "bad"), Step.ok [2] [7]])
        (some ⟨1, none, 5, false⟩) mDest =
      Paginate (some [Step.ok [1] [1], Step.ok [2] [7]])
        (some ⟨1, none, 5, false⟩) mDest :=
  ⟨⟨by decide, by decide⟩,
    c1_offset_window_swallows none (OrmError.decode "bad") [1] [1]
      [Step.ok [2] [7]] ⟨1, none, 5, false⟩ mDest (by decide) (by decide)⟩

/-- The ReadAll loop on a cleanly terminating stream commits the
accumulated records and returns the accumulated RowIDs. -/
theorem readAllLoop_done :
    ∀ (steps : List Step), doneAfterOks steps = true →
      ∀ (rowIDs : List RowID) (tmp : List Record) (d : Dest) (sc : Nat),
        readAllLoop steps rowIDs tmp d sc =
          (.ok (rowIDs ++ (okTake steps).map stepRid),
            d.setContents (tmp ++ (okTake steps).map stepRec), sc + 1) := by
  intro steps
  induction steps with
  | nil => intro _ rowIDs tmp d sc; simp [readAllLoop, okTake]
  | cons st rest ih =>
    intro hdone rowIDs tmp d sc
    match st with
    | Step.ok rid rec =>
      have hdone2 : doneAfterOks rest = true := by
        simpa [doneAfterOks, List.dropWhile, stepIsOk] using hdone
      rw [readAllLoop, ih hdone2]
      simp [okTake, List.takeWhile, stepIsOk, stepRid, stepRec]
    | Step.fail rid e =>
      have he : e.isDone = true := by
        simpa [doneAfterOks, List.dropWhile, stepIsOk, stepIsDone] using hdone
      rw [readAllLoop]
      simp [he, okTake, List.takeWhile, stepIsOk]

/-- C7: over an iterator that terminates cleanly (its reads succeed
until a first IteratorDone — in particular one yielding zero records),
ReadAll with a valid destination returns no error, commits exactly the
records read so far as a non-nil slice into the caller's destination,
and returns their RowIDs in read order (the empty list for zero
records); the iterator is closed. -/
theorem c7_read_all (steps : List Step) (ty : String) (dec : ElemDecodable)
    (c0 : Option (List Record))
    (hdec : dec ≠ ElemDecodable.no) (hdone : doneAfterOks steps = true) :
    ReadAll (some steps) (Dest.ptrToSlice ty true dec c0) =
      ⟨.ok ((okTake steps).map stepRid),
        Dest.ptrToSlice ty true dec (some ((okTake steps).map stepRec)), true, 1⟩ := by
  have ha : assertDest (Dest.ptrToSlice ty true dec c0) = .ok (ty, []) := by
    simp [assertDest, hdec]
  simp only [ReadAll, ha, readAllLoop_done steps hdone]
  simp [Dest.setContents]

/-- C7 witness: ReadAll over an iterator yielding zero records returns
no error, an empty RowID list, and commits an empty non-nil slice. -/
theorem c7_read_all_witness :
    (ElemDecodable.direct ≠ ElemDecodable.no ∧
      doneAfterOks [Step.fail none OrmError.done] = true) ∧
    ReadAll (some [Step.fail none OrmError.done])
        (Dest.ptrToSlice "T" true ElemDecodable.direct none) =
      ⟨.ok [], Dest.ptrToSlice "T" true ElemDecodable.direct (some []), true, 1⟩ :=
  ⟨⟨by decide, by decide⟩, by
    have h := c7_read_all [Step.fail none OrmError.done] "T" ElemDecodable.direct
      none (by decide) (by decide)
    simpa using h⟩

/-- The exhausted branch of the single-value iterator. -/
theorem svLoadNext_done (um : List Nat → Except OrmError Record)
    (s : SingleValueState) (h : (s.closed || s.val.isNone) = true) :
    svLoadNext um false s = (⟨none, some .done, none⟩, s) := by
  unfold svLoadNext
  rw [if_neg (by decide), if_pos h]

/-- The live branch of the single-value iterator. -/
theorem svLoadNext_live (um : List Nat → Except OrmError Record)
    (s : SingleValueState) (h : (s.closed || s.val.isNone) = false) :
    svLoadNext um false s =
      (match um (s.val.getD []) with
        | .ok rec => (⟨some s.rowID, none, some rec⟩, { s with closed := true })
        | .error e => (⟨some s.rowID, some e, none⟩, { s with closed := true })) := by
  unfold svLoadNext
  rw [if_neg (by decide), if_neg (by simp [h])]

/-- Once a single-value iterator reports done, the next call also
reports done (and in fact the done-reporting state is absorbing). -/
theorem svDone_step (um : List Nat → Except OrmError Record) (s : SingleValueState)
    (h : (svLoadNext um false s).1.err = some OrmError.done) :
    (svLoadNext um false ((svLoadNext um false s).2)).1.err = some OrmError.done := by
  by_cases hcv : (s.closed || s.val.isNone) = true
  · rw [svLoadNext_done um s hcv]
    show (svLoadNext um false s).1.err = some OrmError.done
    exact h
  · have hcv2 : (s.closed || s.val.isNone) = false := Bool.eq_false_iff.mpr hcv
    cases hu : um (s.val.getD []) with
    | ok rec =>
      exfalso
      rw [svLoadNext_live um s hcv2, hu] at h
      simp at h
    | error e =>
      rw [svLoadNext_live um s hcv2, hu]
      show (svLoadNext um false { s with closed := true }).1.err = some OrmError.done
      rw [svLoadNext_done um _ (by simp)]

/-- Done-reporting is absorbing along any number of further calls on a
single-value iterator. -/
theorem svDone_iterate (um : List Nat → Except OrmError Record) (k : Nat) :
    ∀ s : SingleValueState, (svLoadNext um false s).1.err = some OrmError.done →
      (svLoadNext um false (svIterate um k s)).1.err = some OrmError.done := by
  induction k with
  | zero => intro s h; exact h
  | succ k ih =>
    intro s h
    rw [svIterate]
    exact ih _ (svDone_step um s h)

/-- The exhausted branch of the limited iterator. -/
theorem limLoadNext_zero {σ : Type} (impl : IterImpl σ) (dn : Bool)
    (s : LimitedIterator σ) (h : s.remainingCount = 0) :
    limLoadNext impl dn s = (⟨none, some .done, none⟩, s) := by
  unfold limLoadNext
  rw [if_pos h]

/-- The live branch of the limited iterator. -/
theorem limLoadNext_pos {σ : Type} (impl : IterImpl σ) (dn : Bool)
    (s : LimitedIterator σ) (h : s.remainingCount ≠ 0) :
    limLoadNext impl dn s =
      ((impl.loadNext dn s.parentIterator).1,
        ⟨s.remainingCount - 1, (impl.loadNext dn s.parentIterator).2⟩) := by
  unfold limLoadNext
  rw [if_neg h]

/-- Once a limited iterator reports done, the next call also reports
done, provided the parent propagates its own done reports. -/
theorem limDone_step {σ : Type} (impl : IterImpl σ)
    (hinv : ∀ p : σ, (impl.loadNext false p).1.err = some OrmError.done →
      (impl.loadNext false ((impl.loadNext false p).2)).1.err = some OrmError.done)
    (s : LimitedIterator σ)
    (h : (limLoadNext impl false s).1.err = some OrmError.done) :
    (limLoadNext impl false ((limLoadNext impl false s).2)).1.err =
      some OrmError.done := by
  by_cases hr : s.remainingCount = 0
  · rw [limLoadNext_zero impl false s hr]
    show (limLoadNext impl false s).1.err = some OrmError.done
    exact h
  · have h3 : (impl.loadNext false s.parentIterator).1.err = some OrmError.done := by
      rw [limLoadNext_pos impl false s hr] at h
      exact h
    rw [limLoadNext_pos impl false s hr]
    show (limLoadNext impl false
      (⟨s.remainingCount - 1, (impl.loadNext false s.parentIterator).2⟩ :
        LimitedIterator σ)).1.err = some OrmError.done
    by_cases hr1 : s.remainingCount - 1 = 0
    · rw [limLoadNext_zero impl false _ hr1]
    · rw [limLoadNext_pos impl false _ hr1]
      show (impl.loadNext false ((impl.loadNext false s.parentIterator).2)).1.err =
        some OrmError.done
      exact hinv s.parentIterator h3

/-- Done-reporting is absorbing along any number of further calls on a
limited iterator whose parent propagates its own done reports. -/
theorem limDone_iterate {σ : Type} (impl : IterImpl σ)
    (hinv : ∀ p : σ, (impl.loadNext false p).1.err = some OrmError.done →
      (impl.loadNext false ((impl.loadNext false p).2)).1.err = some OrmError.done)
    (j : Nat) :
    ∀ s : LimitedIterator σ, (limLoadNext impl false s).1.err = some OrmError.done →
      (limLoadNext impl false (limIterate impl j s)).1.err = some OrmError.done := by
  induction j with
  | zero => intro s h; exact h
  | succ j ih =>
    intro s h
    rw [limIterate]
    exact ih _ (limDone_step impl hinv s h)

/-- C9: for the single-value iterator and for a limited iterator over a
parent that itself keeps reporting done once it has done so, once
LoadNext has reported IteratorDone every subsequent LoadNext call also
reports IteratorDone. -/
theorem c9_idempotent_done {σ : Type} (um : List Nat → Except OrmError Record)
    (s : SingleValueState) (k : Nat) (impl : IterImpl σ)
    (ls : LimitedIterator σ) (j : Nat)
    (h1 : (svLoadNext um false s).1.err = some OrmError.done)
    (h2 : ∀ p : σ, (impl.loadNext false p).1.err = some OrmError.done →
      (impl.loadNext false ((impl.loadNext false p).2)).1.err = some OrmError.done)
    (h3 : (limLoadNext impl false ls).1.err = some OrmError.done) :
    (svLoadNext um false (svIterate um k s)).1.err = some OrmError.done ∧
    (limLoadNext impl false (limIterate impl j ls)).1.err = some OrmError.done :=
  ⟨svDone_iterate um k s h1, limDone_iterate impl h2 j ls h3⟩

/-- C9 witness: an exhausted single-value iterator (nil buffer) and a
limited iterator over a permanently exhausted parent keep reporting
done over two further calls. -/
theorem c9_idempotent_done_witness :
    ((svLoadNext (fun bs => Except.ok bs) false ⟨[1], none, false⟩).1.err =
        some OrmError.done ∧
      (∀ p : Unit, (unitDoneIter.loadNext false p).1.err = some OrmError.done →
        (unitDoneIter.loadNext false
          ((unitDoneIter.loadNext false p).2)).1.err = some OrmError.done) ∧
      (limLoadNext unitDoneIter false ⟨3, ()⟩).1.err = some OrmError.done) ∧
    ((svLoadNext (fun bs => Except.ok bs) false
        (svIterate (fun bs => Except.ok bs) 2 ⟨[1], none, false⟩)).1.err =
        some OrmError.done ∧
      (limLoadNext unitDoneIter false
        (limIterate unitDoneIter 2 ⟨3, ()⟩)).1.err = some OrmError.done) :=
  ⟨⟨by decide, fun p h => h, by decide⟩,
    c9_idempotent_done (fun bs => Except.ok bs) ⟨[1], none, false⟩ 2 unitDoneIter
      ⟨3, ()⟩ 2 (by decide) (fun p h => h) (by decide)⟩

/-- One-step unfolding: exhausted stream commits and finishes. -/
theorem ploop_nil (offset endIdx : Nat) (ct : Bool) (kl : Nat) (s : LoopState) :
    paginateLoop offset endIdx ct kl [] s =
      .finished { s with
        consumed := s.consumed + 1
        dest := s.dest.setContents s.tmpSlice
        setCount := s.setCount + 1 } := by
  simp [paginateLoop]

/-- One-step unfolding: a done step commits and finishes. -/
theorem ploop_fail_done (offset endIdx : Nat) (ct : Bool) (kl : Nat)
    (rid : Option RowID) (e : OrmError) (rest : List Step) (s : LoopState)
    (h : e.isDone = true) :
    paginateLoop offset endIdx ct kl (Step.fail rid e :: rest) s =
      .finished { s with
        consumed := s.consumed + 1
        dest := s.dest.setContents s.tmpSlice
        setCount := s.setCount + 1 } := by
  simp [paginateLoop, h]

/-- One-step unfolding: a non-done failure inside the offset window is
counted and skipped. -/
theorem ploop_fail_skip (offset endIdx : Nat) (ct : Bool) (kl : Nat)
    (rid : Option RowID) (e : OrmError) (rest : List Step) (s : LoopState)
    (h : e.isDone = false) (hskip : s.count + 1 ≤ offset) :
    paginateLoop offset endIdx ct kl (Step.fail rid e :: rest) s =
      paginateLoop offset endIdx ct kl rest
        { s with count := s.count + 1, consumed := s.consumed + 1 } := by
  simp [paginateLoop, h, hskip]

/-- One-step unfolding: a non-done failure past the offset window is
returned as an error. -/
theorem ploop_fail_err (offset endIdx : Nat) (ct : Bool) (kl : Nat)
    (rid : Option RowID) (e : OrmError) (rest : List Step) (s : LoopState)
    (h : e.isDone = false) (hskip : ¬s.count + 1 ≤ offset) :
    paginateLoop offset endIdx ct kl (Step.fail rid e :: rest) s =
      .errored e { s with count := s.count + 1, consumed := s.consumed + 1 } := by
  simp [paginateLoop, h, hskip]

/-- One-step unfolding: a successful read inside the offset window is
counted and skipped. -/
theorem ploop_ok_skip (offset endIdx : Nat) (ct : Bool) (kl : Nat)
    (rid : RowID) (rec : Record) (rest : List Step) (s : LoopState)
    (hskip : s.count + 1 ≤ offset) :
    paginateLoop offset endIdx ct kl (Step.ok rid rec :: rest) s =
      paginateLoop offset endIdx ct kl rest
        { s with count := s.count + 1, consumed := s.consumed + 1 } := by
  simp [paginateLoop, hskip]

/-- One-step unfolding: a successful read inside the limit window is
appended to the working slice. -/
theorem ploop_ok_app (offset endIdx : Nat) (ct : Bool) (kl : Nat)
    (rid : RowID) (rec : Record) (rest : List Step) (s : LoopState)
    (h1 : ¬s.count + 1 ≤ offset) (h2 : s.count + 1 ≤ endIdx) :
    paginateLoop offset endIdx ct kl (Step.ok rid rec :: rest) s =
      paginateLoop offset endIdx ct kl rest
        { s with
          count := s.count + 1
          tmpSlice := s.tmpSlice ++ [rec]
          consumed := s.consumed + 1 } := by
  simp [paginateLoop, h1, h2]

/-- One-step unfolding: the first read past the limit window captures
nextKey, commits, and breaks when no total must be counted. -/
theorem ploop_ok_commit_break (offset endIdx : Nat) (ct : Bool) (kl : Nat)
    (rid : RowID) (rec : Record) (rest : List Step) (s : LoopState)
    (h1 : ¬s.count + 1 ≤ offset) (h2 : ¬s.count + 1 ≤ endIdx)
    (h3 : s.count + 1 = endIdx + 1) (h4 : ct = false ∨ kl ≠ 0) :
    paginateLoop offset endIdx ct kl (Step.ok rid rec :: rest) s =
      .finished { s with
        count := s.count + 1
        nextKey := some rid
        dest := s.dest.setContents s.tmpSlice
        setCount := s.setCount + 1
        consumed := s.consumed + 1 } := by
  simp [paginateLoop, h1, h2, h4, if_pos h3]
  intro hc
  exact absurd (show s.count = endIdx by omega) hc

/-- One-step unfolding: the first read past the limit window captures
nextKey and commits, then keeps scanning to count the total. -/
theorem ploop_ok_commit_go (offset endIdx : Nat) (ct : Bool) (kl : Nat)
    (rid : RowID) (rec : Record) (rest : List Step) (s : LoopState)
    (h1 : ¬s.count + 1 ≤ offset) (h2 : ¬s.count + 1 ≤ endIdx)
    (h3 : s.count + 1 = endIdx + 1) (h4 : ¬(ct = false ∨ kl ≠ 0)) :
    paginateLoop offset endIdx ct kl (Step.ok rid rec :: rest) s =
      paginateLoop offset endIdx ct kl rest
        { s with
          count := s.count + 1
          nextKey := some rid
          dest := s.dest.setContents s.tmpSlice
          setCount := s.setCount + 1
          consumed := s.consumed + 1 } := by
  simp [paginateLoop, h1, h2, h4, if_pos h3]
  intro hc
  exact absurd (show s.count = endIdx by omega) hc

/-- One-step unfolding: a successful read strictly past the nextKey
position is only counted. -/
theorem ploop_ok_past (offset endIdx : Nat) (ct : Bool) (kl : Nat)
    (rid : RowID) (rec : Record) (rest : List Step) (s : LoopState)
    (h1 : ¬s.count + 1 ≤ offset) (h2 : ¬s.count + 1 ≤ endIdx)
    (h3 : ¬s.count + 1 = endIdx + 1) :
    paginateLoop offset endIdx ct kl (Step.ok rid rec :: rest) s =
      paginateLoop offset endIdx ct kl rest
        { s with count := s.count + 1, consumed := s.consumed + 1 } := by
  simp [paginateLoop, h1, h2, h3]



/-- Path equation: both offset and key supplied. -/
theorem Paginate_guard (it : Option (List Step)) (req : Option PageRequest) (d : Dest)
    (hg : (effReq req).offset > 0 ∧ (effReq req).key.isSome = true) :
    Paginate it req d =
      ⟨.error (.plain "invalid request, either offset or key is expected, got both"),
        d, false, 0, 0⟩ := by
  simp only [Paginate]
  rw [if_pos hg]

/-- Path equation: nil iterator. -/
theorem Paginate_nilIt (req : Option PageRequest) (d : Dest)
    (hg : ¬((effReq req).offset > 0 ∧ (effReq req).key.isSome = true)) :
    Paginate none req d =
      ⟨.error (.argument "iterator must not be nil"), d, false, 0, 0⟩ := by
  simp only [Paginate]
  rw [if_neg hg]

/-- Path equation: destination validation fails. -/
theorem Paginate_badDest (steps : List Step) (req : Option PageRequest) (d : Dest)
    (e : OrmError)
    (hg : ¬((effReq req).offset > 0 ∧ (effReq req).key.isSome = true))
    (had : assertDest d = .error e) :
    Paginate (some steps) req d = ⟨.error e, d, true, 0, 0⟩ := by
  simp only [Paginate]
  rw [if_neg hg]
  simp only [had]

/-- Path equation: a validated call runs the pagination loop with the
effective request values. -/
theorem Paginate_run (steps : List Step) (req : Option PageRequest) (d : Dest)
    (pr2 : String × List Record)
    (hg : ¬((effReq req).offset > 0 ∧ (effReq req).key.isSome = true))
    (had : assertDest d = .ok pr2) :
    Paginate (some steps) req d =
      paginateValidated (effReq req).offset (effLimit (effReq req))
        (effCountTotal (effReq req)) (effKeyLen (effReq req)) steps d := by
  simp only [Paginate, paginateValidated]
  rw [if_neg hg]
  simp only [had]



/-- Commit accounting for the Paginate loop: the Set count never
decreases, the destination is untouched while it stays equal, and at
most two commits happen from a fresh window (one at the limit-window
boundary, one at the terminal done). -/
theorem paginateLoop_set_facts (offset endIdx : Nat) (ct : Bool) (kl : Nat) :
    ∀ (steps : List Step) (s : LoopState),
      s.setCount ≤ (exitState (paginateLoop offset endIdx ct kl steps s)).setCount ∧
      ((exitState (paginateLoop offset endIdx ct kl steps s)).setCount = s.setCount →
        (exitState (paginateLoop offset endIdx ct kl steps s)).dest = s.dest) ∧
      (exitState (paginateLoop offset endIdx ct kl steps s)).setCount ≤
        s.setCount + (if s.count ≤ endIdx then 2 else 1) := by
  intro steps
  induction steps with
  | nil =>
    intro s
    rw [ploop_nil]
    refine ⟨?_, ?_, ?_⟩
    · show s.setCount ≤ s.setCount + 1
      omega
    · intro h
      exfalso
      have h2 : s.setCount + 1 = s.setCount := h
      omega
    · show s.setCount + 1 ≤ s.setCount + (if s.count ≤ endIdx then 2 else 1)
      split_ifs <;> omega
  | cons st rest ih =>
    intro s
    match st with
    | Step.fail rid e =>
      by_cases hd : e.isDone = true
      · rw [ploop_fail_done offset endIdx ct kl rid e rest s hd]
        refine ⟨?_, ?_, ?_⟩
        · show s.setCount ≤ s.setCount + 1
          omega
        · intro h
          exfalso
          have h2 : s.setCount + 1 = s.setCount := h
          omega
        · show s.setCount + 1 ≤ s.setCount + (if s.count ≤ endIdx then 2 else 1)
          split_ifs <;> omega
      · have hd2 : e.isDone = false := Bool.eq_false_iff.mpr hd
        by_cases hs : s.count + 1 ≤ offset
        · rw [ploop_fail_skip offset endIdx ct kl rid e rest s hd2 hs]
          obtain ⟨a, b, c⟩ := ih { s with count := s.count + 1, consumed := s.consumed + 1 }
          refine ⟨a, b, ?_⟩
          have c2 : (exitState (paginateLoop offset endIdx ct kl rest { s with count := s.count + 1, consumed := s.consumed + 1 })).setCount ≤ s.setCount + (if s.count + 1 ≤ endIdx then 2 else 1) := c
          split_ifs at c2 ⊢ <;> omega
        · rw [ploop_fail_err offset endIdx ct kl rid e rest s hd2 hs]
          refine ⟨le_refl _, fun _ => rfl, ?_⟩
          show s.setCount ≤ s.setCount + (if s.count ≤ endIdx then 2 else 1)
          split_ifs <;> omega
    | Step.ok rid rec =>
      by_cases hs : s.count + 1 ≤ offset
      · rw [ploop_ok_skip offset endIdx ct kl rid rec rest s hs]
        obtain ⟨a, b, c⟩ := ih { s with count := s.count + 1, consumed := s.consumed + 1 }
        refine ⟨a, b, ?_⟩
        have c2 : (exitState (paginateLoop offset endIdx ct kl rest { s with count := s.count + 1, consumed := s.consumed + 1 })).setCount ≤ s.setCount + (if s.count + 1 ≤ endIdx then 2 else 1) := c
        split_ifs at c2 ⊢ <;> omega
      · by_cases h2 : s.count + 1 ≤ endIdx
        · rw [ploop_ok_app offset endIdx ct kl rid rec rest s hs h2]
          obtain ⟨a, b, c⟩ := ih { s with count := s.count + 1, tmpSlice := s.tmpSlice ++ [rec], consumed := s.consumed + 1 }
          refine ⟨a, b, ?_⟩
          have c2 : (exitState (paginateLoop offset endIdx ct kl rest { s with count := s.count + 1, tmpSlice := s.tmpSlice ++ [rec], consumed := s.consumed + 1 })).setCount ≤ s.setCount + (if s.count + 1 ≤ endIdx then 2 else 1) := c
          split_ifs at c2 ⊢ <;> omega
        · by_cases h3 : s.count + 1 = endIdx + 1
          · by_cases h4 : ct = false ∨ kl ≠ 0
            · rw [ploop_ok_commit_break offset endIdx ct kl rid rec rest s hs h2 h3 h4]
              refine ⟨?_, ?_, ?_⟩
              · show s.setCount ≤ s.setCount + 1
                omega
              · intro h
                exfalso
                have hx : s.setCount + 1 = s.setCount := h
                omega
              · show s.setCount + 1 ≤ s.setCount + (if s.count ≤ endIdx then 2 else 1)
                split_ifs <;> omega
            · rw [ploop_ok_commit_go offset endIdx ct kl rid rec rest s hs h2 h3 h4]
              obtain ⟨a, b, c⟩ := ih { s with count := s.count + 1, nextKey := some rid, dest := s.dest.setContents s.tmpSlice, setCount := s.setCount + 1, consumed := s.consumed + 1 }
              have a2 : s.setCount + 1 ≤ (exitState (paginateLoop offset endIdx ct kl rest { s with count := s.count + 1, nextKey := some rid, dest := s.dest.setContents s.tmpSlice, setCount := s.setCount + 1, consumed := s.consumed + 1 })).setCount := a
              refine ⟨by omega, ?_, ?_⟩
              · intro h
                exfalso
                omega
              · have c2 : (exitState (paginateLoop offset endIdx ct kl rest { s with count := s.count + 1, nextKey := some rid, dest := s.dest.setContents s.tmpSlice, setCount := s.setCount + 1, consumed := s.consumed + 1 })).setCount ≤ s.setCount + 1 + (if s.count + 1 ≤ endIdx then 2 else 1) := c
                split_ifs at c2 ⊢ <;> omega
          · rw [ploop_ok_past offset endIdx ct kl rid rec rest s hs h2 h3]
            obtain ⟨a, b, c⟩ := ih { s with count := s.count + 1, consumed := s.consumed + 1 }
            refine ⟨a, b, ?_⟩
            have c2 : (exitState (paginateLoop offset endIdx ct kl rest { s with count := s.count + 1, consumed := s.consumed + 1 })).setCount ≤ s.setCount + (if s.count + 1 ≤ endIdx then 2 else 1) := c
            split_ifs at c2 ⊢ <;> omega

/-- A validated Paginate call commits at most twice, and if it
committed zero times the destination is unchanged. -/
theorem paginateValidated_facts (offset limit : Nat) (ct : Bool) (kl : Nat)
    (steps : List Step) (d : Dest) :
    (paginateValidated offset limit ct kl steps d).setCount ≤ 2 ∧
    ((paginateValidated offset limit ct kl steps d).setCount = 0 →
      (paginateValidated offset limit ct kl steps d).dest = d) := by
  obtain ⟨a, b, c⟩ := paginateLoop_set_facts offset (offset + limit) ct kl steps
    ⟨0, none, [], d, 0, 0⟩
  unfold paginateValidated
  cases hloop : paginateLoop offset (offset + limit) ct kl steps ⟨0, none, [], d, 0, 0⟩ with
  | errored e s =>
    rw [hloop] at b c
    constructor
    · show s.setCount ≤ 2
      have c2 : s.setCount ≤ 0 + (if (0 : Nat) ≤ offset + limit then 2 else 1) := c
      split_ifs at c2 <;> omega
    · intro h
      show s.dest = d
      exact b h
  | finished s =>
    rw [hloop] at b c
    constructor
    · show s.setCount ≤ 2
      have c2 : s.setCount ≤ 0 + (if (0 : Nat) ≤ offset + limit then 2 else 1) := c
      split_ifs at c2 <;> omega
    · intro h
      show s.dest = d
      exact b h

/-- The ReadAll loop leaves the destination and Set count untouched
whenever it returns an error. -/
theorem readAllLoop_error :
    ∀ (steps : List Step) (rowIDs : List RowID) (tmp : List Record) (d : Dest)
      (sc : Nat) (e : OrmError),
      (readAllLoop steps rowIDs tmp d sc).1 = .error e →
      (readAllLoop steps rowIDs tmp d sc).2.1 = d ∧
      (readAllLoop steps rowIDs tmp d sc).2.2 = sc := by
  intro steps
  induction steps with
  | nil =>
    intro rowIDs tmp d sc e h
    simp [readAllLoop] at h
  | cons st rest ih =>
    intro rowIDs tmp d sc e h
    match st with
    | Step.ok rid rec =>
      have heq : readAllLoop (Step.ok rid rec :: rest) rowIDs tmp d sc =
          readAllLoop rest (rowIDs ++ [rid]) (tmp ++ [rec]) d sc := rfl
      rw [heq] at h ⊢
      exact ih _ _ _ _ _ h
    | Step.fail rid e2 =>
      by_cases hd : e2.isDone = true
      · have heq : readAllLoop (Step.fail rid e2 :: rest) rowIDs tmp d sc =
            (.ok rowIDs, d.setContents tmp, sc + 1) := by
          simp [readAllLoop, hd]
        rw [heq] at h
        simp at h
      · have heq : readAllLoop (Step.fail rid e2 :: rest) rowIDs tmp d sc =
            (.error e2, d, sc) := by
          simp [readAllLoop, Bool.eq_false_iff.mpr hd]
        rw [heq] at h ⊢
        exact ⟨rfl, rfl⟩



/-- C10 (amended): ReadAll assigns to the caller's destination only at
its single Done commit, so on every error return the destination and
the Set count are untouched; Paginate assigns at most twice (at the
limit-window boundary and at Done, with the same committed slice), and
on an error return on which no commit has happened the destination is
exactly as it was before the call. (As stated the claim fails: a
decode error during the countTotal scan after the boundary commit
returns an error with the destination already overwritten.) -/
theorem c10_commit_discipline
    (stepsR : List Step) (dR : Dest) (eR : OrmError)
    (stepsP : List Step) (reqP : Option PageRequest) (dP : Dest) (eP : OrmError)
    (stepsQ : List Step) (reqQ : Option PageRequest) (dQ : Dest)
    (hR : (ReadAll (some stepsR) dR).out = .error eR)
    (hP : (Paginate (some stepsP) reqP dP).out = .error eP)
    (hP0 : (Paginate (some stepsP) reqP dP).setCount = 0) :
    (ReadAll (some stepsR) dR).dest = dR ∧
    (ReadAll (some stepsR) dR).setCount = 0 ∧
    (Paginate (some stepsP) reqP dP).dest = dP ∧
    (Paginate (some stepsQ) reqQ dQ).setCount ≤ 2 := by
  refine ⟨?_, ?_, ?_, ?_⟩
  · cases had : assertDest dR with
    | error e2 =>
      have heq : ReadAll (some stepsR) dR = ⟨.error e2, dR, true, 0⟩ := by
        simp only [ReadAll, had]
      rw [heq]
    | ok pr2 =>
      have heq : ReadAll (some stepsR) dR =
          ⟨(readAllLoop stepsR [] [] dR 0).1, (readAllLoop stepsR [] [] dR 0).2.1,
            true, (readAllLoop stepsR [] [] dR 0).2.2⟩ := by
        simp only [ReadAll, had]
      rw [heq] at hR ⊢
      exact (readAllLoop_error stepsR [] [] dR 0 eR hR).1
  · cases had : assertDest dR with
    | error e2 =>
      have heq : ReadAll (some stepsR) dR = ⟨.error e2, dR, true, 0⟩ := by
        simp only [ReadAll, had]
      rw [heq]
    | ok pr2 =>
      have heq : ReadAll (some stepsR) dR =
          ⟨(readAllLoop stepsR [] [] dR 0).1, (readAllLoop stepsR [] [] dR 0).2.1,
            true, (readAllLoop stepsR [] [] dR 0).2.2⟩ := by
        simp only [ReadAll, had]
      rw [heq] at hR ⊢
      exact (readAllLoop_error stepsR [] [] dR 0 eR hR).2
  · by_cases hg : (effReq reqP).offset > 0 ∧ (effReq reqP).key.isSome = true
    · rw [Paginate_guard _ _ _ hg]
    · cases had : assertDest dP with
      | error e2 =>
        rw [Paginate_badDest stepsP reqP dP e2 hg had]
      | ok pr2 =>
        rw [Paginate_run stepsP reqP dP pr2 hg had] at hP0 ⊢
        exact (paginateValidated_facts _ _ _ _ stepsP dP).2 hP0
  · by_cases hg : (effReq reqQ).offset > 0 ∧ (effReq reqQ).key.isSome = true
    · rw [Paginate_guard _ _ _ hg]
      show (0 : Nat) ≤ 2
      omega
    · cases had : assertDest dQ with
      | error e2 =>
        rw [Paginate_badDest stepsQ reqQ dQ e2 hg had]
        show (0 : Nat) ≤ 2
        omega
      | ok pr2 =>
        rw [Paginate_run stepsQ reqQ dQ pr2 hg had]
        exact (paginateValidated_facts _ _ _ _ stepsQ dQ).1

/-- C10 witness: concrete erroring ReadAll and Paginate runs with
untouched destinations, and a successful run with at most two commits. -/
theorem c10_commit_discipline_witness :
    ((ReadAll (some [Step.fail none OrmError.invalid]) mDest).out =
        .error OrmError.invalid ∧
      (Paginate (some [Step.fail none (OrmError.decode "x")]) none mDest).out =
        .error (OrmError.decode "x") ∧
      (Paginate (some [Step.fail none (OrmError.decode "x")]) none mDest).setCount = 0) ∧
    ((ReadAll (some [Step.fail none OrmError.invalid]) mDest).dest = mDest ∧
      (ReadAll (some [Step.fail none OrmError.invalid]) mDest).setCount = 0 ∧
      (Paginate (some [Step.fail none (OrmError.decode "x")]) none mDest).dest = mDest ∧
      (Paginate (some [Step.ok [1] [1]]) none mDest).setCount ≤ 2) :=
  ⟨⟨by decide, by decide, by decide⟩,
    c10_commit_discipline [Step.fail none OrmError.invalid] mDest OrmError.invalid
      [Step.fail none (OrmError.decode "x")] none mDest (OrmError.decode "x")
      [Step.ok [1] [1]] none mDest (by decide) (by decide) (by decide)⟩




/-- When the Paginate loop finishes normally from a state that has not
yet captured a nextKey, the resulting nextKey is the RowID of the
record the running count reaches at end + 1 (none when the stream
reports done before that). -/
theorem paginateLoop_finished_nextKey (offset limit : Nat) (ct : Bool) (kl : Nat) :
    ∀ (steps : List Step) (s s2 : LoopState),
      (s.count < offset + limit + 1 → s.nextKey = none) →
      paginateLoop offset (offset + limit) ct kl steps s = .finished s2 →
      s2.nextKey =
        (if offset + limit + 1 ≤ s.count then s.nextKey
         else match (counted steps)[offset + limit - s.count]? with
           | some (.ok r _) => some r
           | _ => none) := by
  intro steps
  induction steps with
  | nil =>
    intro s s2 hnk heq
    rw [ploop_nil] at heq
    cases heq
    show s.nextKey = _
    split_ifs with hle
    · rfl
    · have hn : s.nextKey = none := hnk (by omega)
      simp [counted, hn]
  | cons st rest ih =>
    intro s s2 hnk heq
    match st with
    | Step.fail rid e =>
      by_cases hd : e.isDone = true
      · rw [ploop_fail_done offset (offset + limit) ct kl rid e rest s hd] at heq
        cases heq
        show s.nextKey = _
        have hcnt : counted (Step.fail rid e :: rest) = [] := by
          simp [counted, List.takeWhile_cons, stepIsDone, hd]
        rw [hcnt]
        split_ifs with hle
        · rfl
        · have hn : s.nextKey = none := hnk (by omega)
          simp [hn]
      · have hd2 : e.isDone = false := Bool.eq_false_iff.mpr hd
        by_cases hs : s.count + 1 ≤ offset
        · rw [ploop_fail_skip offset (offset + limit) ct kl rid e rest s hd2 hs] at heq
          have hih := ih { s with count := s.count + 1, consumed := s.consumed + 1 } s2
            (fun _ => hnk (by omega)) heq
          rw [if_neg (by show ¬offset + limit + 1 ≤ s.count + 1; omega)] at hih
          rw [hih]
          rw [if_neg (by omega)]
          have hcnt : counted (Step.fail rid e :: rest) =
              Step.fail rid e :: counted rest := by
            simp [counted, List.takeWhile_cons, stepIsDone, hd2]
          rw [hcnt]
          have hidx : offset + limit - s.count = (offset + limit - (s.count + 1)) + 1 := by
            omega
          rw [hidx, List.getElem?_cons_succ]
        · rw [ploop_fail_err offset (offset + limit) ct kl rid e rest s hd2 hs] at heq
          exact absurd heq (by simp)
    | Step.ok rid rec =>
      by_cases hs : s.count + 1 ≤ offset
      · rw [ploop_ok_skip offset (offset + limit) ct kl rid rec rest s hs] at heq
        have hih := ih { s with count := s.count + 1, consumed := s.consumed + 1 } s2
          (fun _ => hnk (by omega)) heq
        rw [if_neg (by show ¬offset + limit + 1 ≤ s.count + 1; omega)] at hih
        rw [hih]
        rw [if_neg (by omega)]
        have hcnt : counted (Step.ok rid rec :: rest) =
            Step.ok rid rec :: counted rest := by
          simp [counted, List.takeWhile_cons, stepIsDone]
        rw [hcnt]
        have hidx : offset + limit - s.count = (offset + limit - (s.count + 1)) + 1 := by
          omega
        rw [hidx, List.getElem?_cons_succ]
      · by_cases h2 : s.count + 1 ≤ offset + limit
        · rw [ploop_ok_app offset (offset + limit) ct kl rid rec rest s hs h2] at heq
          have hih := ih { s with count := s.count + 1, tmpSlice := s.tmpSlice ++ [rec], consumed := s.consumed + 1 } s2
            (fun _ => hnk (by omega)) heq
          rw [if_neg (by show ¬offset + limit + 1 ≤ s.count + 1; omega)] at hih
          rw [hih]
          rw [if_neg (by omega)]
          have hcnt : counted (Step.ok rid rec :: rest) =
              Step.ok rid rec :: counted rest := by
            simp [counted, List.takeWhile_cons, stepIsDone]
          rw [hcnt]
          have hidx : offset + limit - s.count = (offset + limit - (s.count + 1)) + 1 := by
            omega
          rw [hidx, List.getElem?_cons_succ]
        · by_cases h3 : s.count + 1 = offset + limit + 1
          · have hcnt : counted (Step.ok rid rec :: rest) =
                Step.ok rid rec :: counted rest := by
              simp [counted, List.takeWhile_cons, stepIsDone]
            have hidx : offset + limit - s.count = 0 := by omega
            by_cases h4 : ct = false ∨ kl ≠ 0
            · rw [ploop_ok_commit_break offset (offset + limit) ct kl rid rec rest s hs h2 h3 h4] at heq
              cases heq
              show some rid = _
              rw [if_neg (by omega), hcnt, hidx, List.getElem?_cons_zero]
            · rw [ploop_ok_commit_go offset (offset + limit) ct kl rid rec rest s hs h2 h3 h4] at heq
              have hih := ih { s with count := s.count + 1, nextKey := some rid, dest := s.dest.setContents s.tmpSlice, setCount := s.setCount + 1, consumed := s.consumed + 1 } s2
                (fun hlt => absurd hlt (by show ¬s.count + 1 < offset + limit + 1; omega)) heq
              rw [if_pos (by show offset + limit + 1 ≤ s.count + 1; omega)] at hih
              rw [hih]
              show some rid = _
              rw [if_neg (by omega), hcnt, hidx, List.getElem?_cons_zero]
          · rw [ploop_ok_past offset (offset + limit) ct kl rid rec rest s hs h2 h3] at heq
            have hih := ih { s with count := s.count + 1, consumed := s.consumed + 1 } s2
              (fun hlt => absurd hlt (by show ¬s.count + 1 < offset + limit + 1; omega)) heq
            rw [if_pos (by show offset + limit + 1 ≤ s.count + 1; omega)] at hih
            rw [hih]
            show s.nextKey = _
            rw [if_pos (by omega)]



/-- C6: for every successful Paginate call, nextKey is the RowID of the
first record past the limit window (running count = end + 1) and is
absent whenever the iterator reported done within the window, and
total is populated exactly when the effective countTotal (possibly
forced by limit 0) holds and the key has zero length; in particular,
offset 300 and limit 50 over 250 records yields zero appended
elements, no nextKey, and total 250. -/
theorem c6_next_key_and_total (steps : List Step) (req : Option PageRequest)
    (d : Dest) (resp : PageResponse)
    (h : (Paginate (some steps) req d).out = .ok resp) :
    resp.nextKey = pastWindowRid steps (effEnd (effReq req)) ∧
    (resp.total.isSome ↔
      effCountTotal (effReq req) = true ∧ effKeyLen (effReq req) = 0) ∧
    Paginate (some okSteps250) (some ⟨300, none, 50, true⟩)
        (Dest.ptrToSlice "N" true ElemDecodable.direct none) =
      ⟨.ok ⟨none, some 250⟩,
        Dest.ptrToSlice "N" true ElemDecodable.direct (some []), true, 251, 1⟩ := by
  refine ?_
  by_cases hg : (effReq req).offset > 0 ∧ (effReq req).key.isSome = true
  · rw [Paginate_guard _ _ _ hg] at h
    exact absurd h (by simp)
  · cases had : assertDest d with
    | error e2 =>
      rw [Paginate_badDest steps req d e2 hg had] at h
      exact absurd h (by simp)
    | ok pr2 =>
      rw [Paginate_run steps req d pr2 hg had] at h
      unfold paginateValidated at h
      cases hloop : paginateLoop (effReq req).offset
          ((effReq req).offset + effLimit (effReq req)) (effCountTotal (effReq req))
          (effKeyLen (effReq req)) steps ⟨0, none, [], d, 0, 0⟩ with
      | errored e s =>
        rw [hloop] at h
        exact absurd h (by simp)
      | finished s =>
        rw [hloop] at h
        have hresp : PageResponse.mk s.nextKey
            (if effCountTotal (effReq req) = true ∧ effKeyLen (effReq req) = 0 then
              some s.count else none) = resp := by
          simpa using h
        have hk := paginateLoop_finished_nextKey (effReq req).offset
          (effLimit (effReq req)) (effCountTotal (effReq req)) (effKeyLen (effReq req))
          steps ⟨0, none, [], d, 0, 0⟩ s (fun _ => rfl) hloop
        rw [if_neg (by
          show ¬((effReq req).offset + effLimit (effReq req) + 1 ≤ 0)
          omega)] at hk
        have hk2 : s.nextKey =
            (match (counted steps)[(effReq req).offset + effLimit (effReq req) - 0]? with
              | some (.ok r _) => some r
              | _ => none) := hk
        rw [Nat.sub_zero] at hk2
        refine ⟨?_, ?_, by decide⟩
        · rw [← hresp]
          show s.nextKey = pastWindowRid steps (effEnd (effReq req))
          exact hk2
        · rw [← hresp]
          by_cases hct : effCountTotal (effReq req) = true ∧ effKeyLen (effReq req) = 0
          · simp only [if_pos hct]
            simp [hct]
          · simp only [if_neg hct]
            constructor
            · intro hx
              simp at hx
            · intro hx
              exact absurd hx hct

/-- C6 witness: a one-record default-request call whose response has no
nextKey and total 1, plus the offset-300/limit-50 instance. -/
theorem c6_next_key_and_total_witness :
    ((Paginate (some [Step.ok [3] [7]]) none mDest).out =
      .ok ⟨none, some 1⟩) ∧
    ((⟨none, some 1⟩ : PageResponse).nextKey =
        pastWindowRid [Step.ok [3] [7]] (effEnd (effReq none)) ∧
      ((⟨none, some 1⟩ : PageResponse).total.isSome ↔
        effCountTotal (effReq none) = true ∧ effKeyLen (effReq none) = 0) ∧
      Paginate (some okSteps250) (some ⟨300, none, 50, true⟩)
          (Dest.ptrToSlice "N" true ElemDecodable.direct none) =
        ⟨.ok ⟨none, some 250⟩,
          Dest.ptrToSlice "N" true ElemDecodable.direct (some []), true, 251, 1⟩) :=
  ⟨by decide, c6_next_key_and_total [Step.ok [3] [7]] none mDest ⟨none, some 1⟩ (by decide)⟩

end Orm
